import Mathlib

/-!
# TranscriptTurbo — local result cache (history storage) embedding

Shallow embedding of the IndexedDB-backed history cache of TranscriptTurbo:
the record shapes from `frontend/src/types.ts`, the version-2 storage module
(`normalizeHistoryEntry`, `saveHistoryEntry`, `getHistoryEntry`,
`getAllHistory`, `deleteHistoryEntry`, `enforceStorageLimit`,
`addSummaryVersion`, and the v1→v2 migration step inside `openDatabase`),
and the version-1 storage module (`getHistoryEntry` without normalization)
that `App.tsx` imports.

The store is modelled as a list of records with `fileHash` as primary key;
IndexedDB `put` is replace-by-key.  JavaScript's optional / nullable fields
are modelled with `Option` (for the legacy `summary` field, `none` = absent,
`some none` = null).  `Date.now()` is passed in as an explicit `now`
parameter; the JavaScript falsy test `entry.processedAt || Date.now()`
becomes a test against `0`.  Timestamps and sizes are `Nat`.
-/

namespace TranscriptTurbo

/-- `ActionItem` from `types.ts`: `{item, owner?, due_date?}`. -/
structure ActionItem where
  item : String
  owner : Option String
  due_date : Option String
deriving DecidableEq, Repr

/-- `MeetingNotes` from `types.ts`. -/
structure MeetingNotes where
  summary : String
  participants : List String
  decisions : List String
  action_items : List ActionItem
deriving DecidableEq, Repr

/-- `TranscriptSegment` from `types.ts`. -/
structure TranscriptSegment where
  speaker : String
  text : String
  start_time : Option Nat
  end_time : Option Nat
deriving DecidableEq, Repr

/-- `TrimInfo` from `types.ts`. -/
structure TrimInfo where
  requested : Bool
  applied : Bool
  method : String
  error : Option String
deriving DecidableEq, Repr

/-- `TranscribeResponse` from `types.ts`. -/
structure TranscribeResponse where
  transcript_text : String
  segments : List TranscriptSegment
  transcription_model : String
  trim : TrimInfo
deriving DecidableEq, Repr

/-- `SummarizeResponse` from `types.ts`: `{notes, llm_model}`. -/
structure SummarizeResponse where
  notes : MeetingNotes
  llm_model : String
deriving DecidableEq, Repr

/-- `HistoryMetadata` from `types.ts`; `llmModel` is `string | null`. -/
structure HistoryMetadata where
  transcriptionModel : String
  llmModel : Option String
  speakerCount : Nat
  wordCount : Nat
deriving DecidableEq, Repr

/-- `SummaryVersion` as used by the version-2 storage module:
`{summary, generatedAt, version}` where `summary` is a `SummarizeResponse`
(the code reads `summaryVersion.summary.llm_model`). -/
structure SummaryVersion where
  summary : SummarizeResponse
  generatedAt : Nat
  version : Nat
deriving DecidableEq, Repr

/-- A raw record as it sits in the object store.  It can be in the legacy
(version-1) shape with a singular `summary` field, in the current shape with
a `summaries` array, or in any mixture; both optional fields are modelled
with `Option`.  For `summary`, `none` = field absent (undefined),
`some none` = field null. `metadata` is optional because `addSummaryVersion`
guards on its presence (`if (entry.metadata)`). -/
structure RawEntry where
  fileHash : String
  fileName : String
  fileSize : Nat
  duration : Nat
  processedAt : Nat
  transcript : TranscribeResponse
  summary : Option (Option SummarizeResponse)
  summaries : Option (List SummaryVersion)
  metadata : Option HistoryMetadata
deriving DecidableEq, Repr

/-- The object store contents: records keyed by `fileHash`. -/
abbrev Store := List RawEntry

/-- `objectStore.get(fileHash)`: the record with that primary key, if any. -/
def lookupEntry (s : Store) (h : String) : Option RawEntry :=
  s.find? (fun e => e.fileHash == h)

/-- `saveHistoryEntry` (both modules): `objectStore.put(entry)`, an upsert
that replaces any record with the same `fileHash` key. -/
def saveHistoryEntry (s : Store) (e : RawEntry) : Store :=
  e :: s.filter (fun x => x.fileHash != e.fileHash)

/-- `deleteHistoryEntry` (both modules): `objectStore.delete(fileHash)`. -/
def deleteHistoryEntry (s : Store) (h : String) : Store :=
  s.filter (fun x => x.fileHash != h)

/-- `clearAllHistory` (both modules): `objectStore.clear()`. -/
def clearAllHistory (_s : Store) : Store := []

/-- `getHistoryCount` (both modules): `objectStore.count()`. -/
def getHistoryCount (s : Store) : Nat := s.length

/-- `normalizeHistoryEntry` from the version-2 storage module, on a non-null
record.  If the record already has a `summaries` array it is returned as is
(the legacy `summary` field, if any, is left in place).  Otherwise the legacy
singular `summary` is wrapped as a one-element `summaries` array with
`version = 1` and `generatedAt = entry.processedAt || Date.now()` (the `now`
argument models `Date.now()`), a null/absent legacy summary gives an empty
array, and the legacy field is removed. -/
def normalizeHistoryEntry (entry : RawEntry) (now : Nat) : RawEntry :=
  match entry.summaries with
  | some _ => entry
  | none =>
    let summaries : List SummaryVersion :=
      match entry.summary with
      | some (some s) =>
        [{ summary := s
           generatedAt := if entry.processedAt == 0 then now else entry.processedAt
           version := 1 }]
      | _ => []
    { entry with summaries := some summaries, summary := none }

/-- `normalizeHistoryEntry` including its guard `if (!entry) throw ...`:
the input may be null/undefined (`none`), in which case a
NormalizationError is thrown. -/
def normalizeHistoryEntryChecked (entry : Option RawEntry) (now : Nat) :
    Except String RawEntry :=
  match entry with
  | none => .error "Entry is null or undefined"
  | some e => .ok (normalizeHistoryEntry e now)

/-- The `onsuccess` handler of the version-2 `getHistoryEntry`: a missing
record resolves to null, a fetched record is normalized inside
`try ... catch`, and a normalization failure also resolves to null. -/
def getHistoryEntryResult (result : Option RawEntry) (now : Nat) :
    Option RawEntry :=
  match result with
  | some r =>
    match normalizeHistoryEntryChecked (some r) now with
    | .ok e => some e
    | .error _ => none
  | none => none

/-- `getHistoryEntry` from the version-2 storage module:
fetch by `fileHash`, then the `onsuccess` handling above. -/
def getHistoryEntry (s : Store) (h : String) (now : Nat) : Option RawEntry :=
  getHistoryEntryResult (lookupEntry s h) now

/-- `getHistoryEntry` from the version-1 storage module
(`frontend/src/utils/historyStorage.ts`, the module `App.tsx` imports):
`resolve(request.result || null)`, no normalization. -/
def getHistoryEntryV1 (s : Store) (h : String) : Option RawEntry :=
  lookupEntry s h

/-- Cursor order of the `processedAt` index iterated with direction
`prev`: descending `processedAt`, ties broken by descending primary key
(`fileHash`).  `histLE a b` says `a` may come before `b`. -/
def histLE (a b : RawEntry) : Bool :=
  b.processedAt < a.processedAt ||
    (b.processedAt == a.processedAt && decide (b.fileHash ≤ a.fileHash))

/-- `getAllHistory` from the version-2 storage module: all records in
index order (newest first), each passed through the normalizer.
(The per-record `try/catch` that skips records failing normalization is
never taken: the normalizer only throws on a null record and cursor values
are the stored non-null records.) -/
def getAllHistory (s : Store) (now : Nat) : List RawEntry :=
  (s.mergeSort histLE).map (fun e => normalizeHistoryEntry e now)

/-- `enforceStorageLimit` (version-2 module): fetch all entries newest
first; when over `maxItems`, delete every entry beyond the first
`maxItems`, one `deleteHistoryEntry` call per surplus entry. -/
def enforceStorageLimit (s : Store) (maxItems : Nat) (now : Nat) : Store :=
  let allEntries := getAllHistory s now
  if allEntries.length ≤ maxItems then s
  else
    ((allEntries.drop maxItems).map (fun e => e.fileHash)).foldl
      deleteHistoryEntry s

/-- `addSummaryVersion` from the version-2 storage module: fetch the raw
record by `fileHash` (no normalization); reject with "History entry not
found" when absent; otherwise append the supplied `SummaryVersion` to
`entry.summaries || []`, set `metadata.llmModel` to the supplied version's
model when `metadata` is present, and put the record back. -/
def addSummaryVersion (s : Store) (h : String) (v : SummaryVersion) :
    Except String Store :=
  match lookupEntry s h with
  | none => .error "History entry not found"
  | some entry =>
    let e1 : RawEntry :=
      { entry with summaries := some (entry.summaries.getD [] ++ [v]) }
    let e2 : RawEntry :=
      match e1.metadata with
      | some m =>
        { e1 with metadata := some { m with llmModel := some v.summary.llm_model } }
      | none => e1
    .ok (saveHistoryEntry s e2)

/-- Modelled from the spec: `version` is "assigned as (count of existing
summaries for this entry) + 1".  No module in the repository performs this
assignment (`addSummaryVersion` stores whatever `version` the caller put in
the `SummaryVersion` argument, and no caller of `addSummaryVersion` exists
in the sources); this definition is the version-assignment discipline the
spec describes, layered over the real `addSummaryVersion`. -/
def appendAssignedVersion (s : Store) (k : String) (p : SummarizeResponse)
    (t : Nat) : Except String Store :=
  match lookupEntry s k with
  | none => .error "History entry not found"
  | some entry =>
    addSummaryVersion s k
      { summary := p, generatedAt := t
        version := (entry.summaries.getD []).length + 1 }

/-- `n` successive `appendAssignedVersion` calls, one per summarization run
`(payload, timestamp)`, stopping at the first failure. -/
def appendAllAssigned (s : Store) (k : String) :
    List (SummarizeResponse × Nat) → Except String Store
  | [] => .ok s
  | p :: ps =>
    match appendAssignedVersion s k p.1 p.2 with
    | .error msg => .error msg
    | .ok s2 => appendAllAssigned s2 k ps

/-- The per-record transformation of the version-1 → version-2 migration
inside `openDatabase`'s `onupgradeneeded` cursor loop: only records with a
legacy `summary` field (possibly null) and no `summaries` array are
rewritten; the legacy value, when non-null, is wrapped with
`generatedAt = entry.processedAt` (no fallback) and `version = 1`, and the
legacy field is removed. -/
def migrateRecordV1toV2 (entry : RawEntry) : RawEntry :=
  match entry.summaries, entry.summary with
  | none, some legacy =>
    let summaries : List SummaryVersion :=
      match legacy with
      | some s => [{ summary := s, generatedAt := entry.processedAt, version := 1 }]
      | none => []
    { entry with summaries := some summaries, summary := none }
  | _, _ => entry

/-! Concrete sample data, used by witnesses and counterexamples. -/

/-- A sample structured summary payload. -/
def sampleNotes : MeetingNotes :=
  { summary := "weekly sync", participants := ["Alice", "Bob"]
    decisions := ["ship it"]
    action_items := [{ item := "write notes", owner := some "Alice", due_date := none }] }

/-- A sample summarization result. -/
def sampleSummarize : SummarizeResponse :=
  { notes := sampleNotes, llm_model := "model-a" }

/-- A second sample summarization result with a different model. -/
def sampleSummarize2 : SummarizeResponse :=
  { notes := sampleNotes, llm_model := "model-b" }

/-- A sample transcription result. -/
def sampleTranscript : TranscribeResponse :=
  { transcript_text := "hello world"
    segments := [{ speaker := "S1", text := "hello world", start_time := some 0, end_time := some 2 }]
    transcription_model := "stt-1"
    trim := { requested := false, applied := false, method := "none", error := none } }

/-- A sample derived metadata aggregate. -/
def sampleMetadata : HistoryMetadata :=
  { transcriptionModel := "stt-1", llmModel := none, speakerCount := 1, wordCount := 2 }

/-- A freshly created current-shape entry: empty `summaries` array. -/
def freshEntry : RawEntry :=
  { fileHash := "h1", fileName := "a.mp3", fileSize := 10, duration := 5
    processedAt := 100, transcript := sampleTranscript
    summary := none, summaries := some [], metadata := some sampleMetadata }

/-- A legacy-shape entry: singular non-null `summary`, no `summaries`,
`processedAt = 50` (the spec's migration scenario). -/
def legacyEntry : RawEntry :=
  { fileHash := "abc", fileName := "b.mp3", fileSize := 20, duration := 7
    processedAt := 50, transcript := sampleTranscript
    summary := some (some sampleSummarize), summaries := none
    metadata := some sampleMetadata }

/-- A legacy-shape entry whose `processedAt` is `0` (falsy in JavaScript). -/
def legacyZeroEntry : RawEntry :=
  { legacyEntry with fileHash := "zzz", processedAt := 0 }

/-- A record with neither a legacy `summary` field nor a `summaries` array. -/
def bareEntry : RawEntry :=
  { fileHash := "bare", fileName := "c.mp3", fileSize := 30, duration := 9
    processedAt := 60, transcript := sampleTranscript
    summary := none, summaries := none, metadata := some sampleMetadata }

/-- A `SummaryVersion` whose `version` field is 7 — `addSummaryVersion`
accepts it unchanged. -/
def sv7 : SummaryVersion :=
  { summary := sampleSummarize, generatedAt := 200, version := 7 }

/-- Entries with `processedAt` 100 / 200 / 300 for the eviction scenario. -/
def entryAt (k : String) (t : Nat) : RawEntry :=
  { fileHash := k, fileName := k ++ ".mp3", fileSize := 1, duration := 1
    processedAt := t, transcript := sampleTranscript
    summary := none, summaries := some [], metadata := some sampleMetadata }

/-! ## Helper lemmas -/

theorem normalizeHistoryEntry_of_summaries {e : RawEntry} {l : List SummaryVersion}
    (now : Nat) (h : e.summaries = some l) : normalizeHistoryEntry e now = e := by
  unfold normalizeHistoryEntry
  rw [h]

theorem normalizeHistoryEntry_summaries_ne_none (e : RawEntry) (now : Nat) :
    (normalizeHistoryEntry e now).summaries ≠ none := by
  unfold normalizeHistoryEntry
  split <;> simp_all

theorem normalizeHistoryEntry_fileHash (e : RawEntry) (now : Nat) :
    (normalizeHistoryEntry e now).fileHash = e.fileHash := by
  unfold normalizeHistoryEntry
  split <;> rfl

theorem normalizeHistoryEntry_processedAt (e : RawEntry) (now : Nat) :
    (normalizeHistoryEntry e now).processedAt = e.processedAt := by
  unfold normalizeHistoryEntry
  split <;> rfl

/-! ## Claim theorems -/

/-- C2: for every entry `e` and every prior store state, after
`saveHistoryEntry e` the lookup `getHistoryEntry` on `e.fileHash` returns
exactly the written entry passed through the normalizer. -/
theorem saveHistoryEntry_getHistoryEntry_roundtrip (s : Store) (e : RawEntry)
    (now : Nat) :
    getHistoryEntry (saveHistoryEntry s e) e.fileHash now =
      some (normalizeHistoryEntry e now) := by
  simp [getHistoryEntry, saveHistoryEntry, lookupEntry, List.find?,
        getHistoryEntryResult, normalizeHistoryEntryChecked]

/-- C7: normalization is idempotent — an entry that already has a
`summaries` array is returned unchanged, normalizing twice equals
normalizing once, and the v1→v2 migration step applied twice equals
applying it once. -/
theorem normalization_and_migration_idempotent :
    (∀ (e : RawEntry) (now : Nat) (l : List SummaryVersion),
      e.summaries = some l → normalizeHistoryEntry e now = e) ∧
    (∀ (e : RawEntry) (now now2 : Nat),
      normalizeHistoryEntry (normalizeHistoryEntry e now) now2 =
        normalizeHistoryEntry e now) ∧
    (∀ e : RawEntry,
      migrateRecordV1toV2 (migrateRecordV1toV2 e) = migrateRecordV1toV2 e) := by
  refine ⟨fun e now l h => normalizeHistoryEntry_of_summaries now h,
          fun e now now2 => ?_, fun e => ?_⟩
  · obtain ⟨l, hl⟩ :=
      Option.ne_none_iff_exists'.mp (normalizeHistoryEntry_summaries_ne_none e now)
    exact normalizeHistoryEntry_of_summaries now2 hl
  · cases hs : e.summaries with
    | some l => simp [migrateRecordV1toV2, hs]
    | none =>
      cases hy : e.summary with
      | none => simp [migrateRecordV1toV2, hs, hy]
      | some legacy => simp [migrateRecordV1toV2, hs, hy]

/-- C7 witness: the already-current-shape sample entry is returned
unchanged by the normalizer. -/
theorem normalization_and_migration_idempotent_witness :
    normalizeHistoryEntry freshEntry 3 = freshEntry :=
  normalization_and_migration_idempotent.1 freshEntry 3 [] rfl

/-- C9: a lookup on a fingerprint no stored entry carries returns `none`
(not-found, no exception), and whenever the fetched record fails
normalization (which happens exactly for a null/undefined record) the
`getHistoryEntry` result handling also returns `none` instead of
propagating the error. -/
theorem getHistoryEntry_missing_or_error_is_none (s : Store) (k : String)
    (now : Nat) :
    ((∀ e ∈ s, e.fileHash ≠ k) → getHistoryEntry s k now = none) ∧
    (∀ (r : Option RawEntry) (msg : String),
      normalizeHistoryEntryChecked r now = .error msg →
      getHistoryEntryResult r now = none) := by
  constructor
  · intro hmiss
    have hnone : lookupEntry s k = none := by
      rw [lookupEntry, List.find?_eq_none]
      intro e he
      simpa using hmiss e he
    rw [getHistoryEntry, hnone]
    rfl
  · intro r msg hr
    cases r with
    | none => rfl
    | some x => simp [normalizeHistoryEntryChecked] at hr

/-- C9 witness: looking up the fingerprint "missing" in a store holding
only the sample entry returns not-found. -/
theorem getHistoryEntry_missing_or_error_is_none_witness :
    getHistoryEntry [freshEntry] "missing" 0 = none :=
  (getHistoryEntry_missing_or_error_is_none [freshEntry] "missing" 0).1
    (by decide)

/-- C10: for a stored record `e`, the version-1 `getHistoryEntry` (the
module `App.tsx` imports) returns `e` exactly as stored, the version-2
`getHistoryEntry` returns `normalizeHistoryEntry e`, and the two agree
precisely when `e` already carries a `summaries` field. -/
theorem getHistoryEntryV1_vs_V2 (s : Store) (k : String) (e : RawEntry)
    (now : Nat) (hl : lookupEntry s k = some e) :
    getHistoryEntryV1 s k = some e ∧
    getHistoryEntry s k now = some (normalizeHistoryEntry e now) ∧
    (getHistoryEntryV1 s k = getHistoryEntry s k now ↔ e.summaries ≠ none) := by
  have hv2 : getHistoryEntry s k now = some (normalizeHistoryEntry e now) := by
    rw [getHistoryEntry, hl]
    rfl
  refine ⟨hl, hv2, ?_⟩
  rw [getHistoryEntryV1, hl, hv2]
  constructor
  · intro heq hnone
    have he : e = normalizeHistoryEntry e now := Option.some.inj heq
    have h2 := normalizeHistoryEntry_summaries_ne_none e now
    rw [← he] at h2
    exact h2 hnone
  · intro hne
    obtain ⟨l, hl2⟩ := Option.ne_none_iff_exists'.mp hne
    rw [normalizeHistoryEntry_of_summaries now hl2]

/-- C10 witness: with the legacy-shape sample entry stored, the two
implementations disagree (the entry lacks `summaries`), and the version-1
module returns it raw. -/
theorem getHistoryEntryV1_vs_V2_witness :
    getHistoryEntryV1 [legacyEntry] "abc" = some legacyEntry ∧
    (getHistoryEntryV1 [legacyEntry] "abc" =
        getHistoryEntry [legacyEntry] "abc" 0 ↔
      legacyEntry.summaries ≠ none) :=
  ⟨(getHistoryEntryV1_vs_V2 [legacyEntry] "abc" legacyEntry 0 (by decide)).1,
   (getHistoryEntryV1_vs_V2 [legacyEntry] "abc" legacyEntry 0 (by decide)).2.2⟩

theorem addSummaryVersion_ok (s : Store) (k : String) (v : SummaryVersion)
    (e : RawEntry) (hl : lookupEntry s k = some e) :
    addSummaryVersion s k v =
      .ok (saveHistoryEntry s
        { e with
          summaries := some (e.summaries.getD [] ++ [v])
          metadata :=
            e.metadata.map fun m => { m with llmModel := some v.summary.llm_model } }) := by
  cases hm : e.metadata with
  | none => simp [addSummaryVersion, hl, hm]
  | some m => simp [addSummaryVersion, hl, hm]

theorem lookupEntry_save_self (s : Store) (e2 : RawEntry) (k : String)
    (hk : e2.fileHash = k) :
    lookupEntry (saveHistoryEntry s e2) k = some e2 := by
  simp [lookupEntry, saveHistoryEntry, List.find?, hk]

/-- C4: `addSummaryVersion` rejects with the entry-not-found error exactly
when no stored entry carries the fingerprint (returning an error, hence
writing nothing); on a hit it puts back the fetched entry with the supplied
version appended to `summaries` and `metadata.llmModel` set to the model
identifier the new version carries. -/
theorem addSummaryVersion_not_found_iff (s : Store) (k : String)
    (v : SummaryVersion) :
    (addSummaryVersion s k v = .error "History entry not found" ↔
      ∀ e ∈ s, e.fileHash ≠ k) ∧
    (∀ e, lookupEntry s k = some e →
      addSummaryVersion s k v =
        .ok (saveHistoryEntry s
          { e with
            summaries := some (e.summaries.getD [] ++ [v])
            metadata :=
              e.metadata.map fun m =>
                { m with llmModel := some v.summary.llm_model } })) := by
  refine ⟨⟨?_, ?_⟩, fun e hl => addSummaryVersion_ok s k v e hl⟩
  · intro herr
    cases hl : lookupEntry s k with
    | none =>
      intro e he
      have := List.find?_eq_none.mp hl e he
      simpa using this
    | some e =>
      rw [addSummaryVersion_ok s k v e hl] at herr
      exact absurd herr (by simp)
  · intro hmiss
    have hl : lookupEntry s k = none := by
      rw [lookupEntry, List.find?_eq_none]
      intro e he
      simpa using hmiss e he
    simp [addSummaryVersion, hl]

/-- C4 witness: appending to a store holding only an entry keyed "h1"
fails with entry-not-found for key "nope" and succeeds for key "h1". -/
theorem addSummaryVersion_not_found_iff_witness :
    addSummaryVersion [freshEntry] "nope" sv7 =
      .error "History entry not found" ∧
    addSummaryVersion [freshEntry] "h1" sv7 =
      .ok (saveHistoryEntry [freshEntry]
        { freshEntry with
          summaries := some (freshEntry.summaries.getD [] ++ [sv7])
          metadata :=
            freshEntry.metadata.map fun m =>
              { m with llmModel := some sv7.summary.llm_model } }) :=
  ⟨(addSummaryVersion_not_found_iff [freshEntry] "nope" sv7).1.mpr (by decide),
   (addSummaryVersion_not_found_iff [freshEntry] "h1" sv7).2 freshEntry (by decide)⟩

/-- C5: for a stored entry of any shape, a successful `addSummaryVersion`
leaves the previously stored `summaries` (an empty list when the field was
absent) as a prefix — the new array is exactly the old one with `v`
appended — and leaves every other field unchanged: `fileHash`, `fileName`,
`fileSize`, `duration`, `processedAt`, `transcript`, the legacy `summary`
field, and all of `metadata` except `llmModel`. -/
theorem addSummaryVersion_frame (s : Store) (k : String) (v : SummaryVersion)
    (e : RawEntry) (s2 : Store) (hl : lookupEntry s k = some e)
    (hok : addSummaryVersion s k v = .ok s2) :
    ∃ e2, lookupEntry s2 e.fileHash = some e2 ∧
      e2.summaries = some (e.summaries.getD [] ++ [v]) ∧
      e2.fileHash = e.fileHash ∧ e2.fileName = e.fileName ∧
      e2.fileSize = e.fileSize ∧ e2.duration = e.duration ∧
      e2.processedAt = e.processedAt ∧ e2.transcript = e.transcript ∧
      e2.summary = e.summary ∧
      e2.metadata.map (fun m => m.transcriptionModel) =
        e.metadata.map (fun m => m.transcriptionModel) ∧
      e2.metadata.map (fun m => m.speakerCount) =
        e.metadata.map (fun m => m.speakerCount) ∧
      e2.metadata.map (fun m => m.wordCount) =
        e.metadata.map (fun m => m.wordCount) := by
  rw [addSummaryVersion_ok s k v e hl] at hok
  have hs2 : s2 =
      saveHistoryEntry s
        { e with
          summaries := some (e.summaries.getD [] ++ [v])
          metadata :=
            e.metadata.map fun m =>
              { m with llmModel := some v.summary.llm_model } } :=
    (Except.ok.inj hok).symm
  subst hs2
  exact ⟨_, lookupEntry_save_self s _ e.fileHash rfl, rfl, rfl, rfl, rfl,
         rfl, rfl, rfl, rfl, by cases e.metadata <;> rfl,
         by cases e.metadata <;> rfl, by cases e.metadata <;> rfl⟩

/-- C5 witness: appending to the stored legacy-shape entry keeps its
untouched fields, including the legacy `summary` field. -/
theorem addSummaryVersion_frame_witness :
    ∃ e2,
      lookupEntry
        (saveHistoryEntry [legacyEntry]
          { legacyEntry with
            summaries := some [sv7]
            metadata := some { sampleMetadata with llmModel := some "model-a" } })
        legacyEntry.fileHash = some e2 ∧
      e2.summaries = some (legacyEntry.summaries.getD [] ++ [sv7]) ∧
      e2.fileHash = legacyEntry.fileHash ∧ e2.fileName = legacyEntry.fileName ∧
      e2.fileSize = legacyEntry.fileSize ∧ e2.duration = legacyEntry.duration ∧
      e2.processedAt = legacyEntry.processedAt ∧
      e2.transcript = legacyEntry.transcript ∧
      e2.summary = legacyEntry.summary ∧
      e2.metadata.map (fun m => m.transcriptionModel) =
        legacyEntry.metadata.map (fun m => m.transcriptionModel) ∧
      e2.metadata.map (fun m => m.speakerCount) =
        legacyEntry.metadata.map (fun m => m.speakerCount) ∧
      e2.metadata.map (fun m => m.wordCount) =
        legacyEntry.metadata.map (fun m => m.wordCount) :=
  addSummaryVersion_frame [legacyEntry] "abc" sv7 legacyEntry _ (by decide)
    (by rfl)

/-- C1 counterexample: `addSummaryVersion` does not assign version numbers.
One successful append on a fresh entry stores the caller-supplied
`SummaryVersion` verbatim: its `version` is 7, not 1 = (count of existing
summaries) + 1. -/
theorem addSummaryVersion_takes_caller_version :
    addSummaryVersion [freshEntry] "h1" sv7 =
      .ok [{ freshEntry with
             summaries := some [sv7]
             metadata := some { sampleMetadata with llmModel := some "model-a" } }] ∧
    sv7.version ≠ 1 := by
  constructor
  · rfl
  · decide

theorem lookupEntry_fileHash {s : Store} {k : String} {e : RawEntry}
    (hl : lookupEntry s k = some e) : e.fileHash = k := by
  have := List.find?_some hl
  simpa using this

theorem appendAllAssigned_invariant (ps : List (SummarizeResponse × Nat))
    (s : Store) (k : String) (e : RawEntry) (l : List SummaryVersion)
    (hl : lookupEntry s k = some e) (hsum : e.summaries = some l)
    (hver : l.map (fun sv => sv.version) = List.range' 1 l.length) :
    ∃ s2 e2 l2, appendAllAssigned s k ps = .ok s2 ∧
      lookupEntry s2 k = some e2 ∧ e2.summaries = some l2 ∧
      l2.length = l.length + ps.length ∧
      l2.map (fun sv => sv.version) = List.range' 1 l2.length := by
  induction ps generalizing s e l with
  | nil => exact ⟨s, e, l, rfl, hl, hsum, by simp, hver⟩
  | cons p ps ih =>
    have hok := addSummaryVersion_ok s k
      { summary := p.1, generatedAt := p.2
        version := (e.summaries.getD []).length + 1 } e hl
    set v : SummaryVersion :=
      { summary := p.1, generatedAt := p.2
        version := (e.summaries.getD []).length + 1 } with hv
    set e2 : RawEntry :=
      { e with
        summaries := some (e.summaries.getD [] ++ [v])
        metadata :=
          e.metadata.map fun m =>
            { m with llmModel := some v.summary.llm_model } } with he2
    have hfh : e.fileHash = k := lookupEntry_fileHash hl
    have hl2 : lookupEntry (saveHistoryEntry s e2) k = some e2 :=
      lookupEntry_save_self s e2 k (by exact hfh)
    have hsum2 : e2.summaries = some (l ++ [v]) := by
      simp [he2, hsum]
    have hver2 : (l ++ [v]).map (fun sv => sv.version) =
        List.range' 1 (l ++ [v]).length := by
      have hrc : List.range' 1 (l.length + 1) =
          List.range' 1 l.length ++ [1 + 1 * l.length] :=
        List.range'_concat 1 l.length
      have hlen : (l ++ [v]).length = l.length + 1 := by simp
      rw [List.map_append, hver, hlen, hrc]
      simp [hv, hsum, Nat.add_comm]
    obtain ⟨s2, e3, l2, h1, h2, h3, h4, h5⟩ :=
      ih (saveHistoryEntry s e2) e2 (l ++ [v]) hl2 hsum2 hver2
    refine ⟨s2, e3, l2, ?_, h2, h3, by simp at h4 ⊢; omega, h5⟩
    show appendAllAssigned s k (p :: ps) = .ok s2
    rw [appendAllAssigned]
    have happ : appendAssignedVersion s k p.1 p.2 =
        .ok (saveHistoryEntry s e2) := by
      simp only [appendAssignedVersion, hl]
      exact hok
    rw [happ]
    exact h1

/-- C1 (amended): `addSummaryVersion` stores the caller-supplied `version`
verbatim, so monotone versioning holds for appends that follow the spec's
assignment discipline: after `n` successful appends on a fresh entry, each
carrying `version` = (count of existing summaries) + 1 (`appendAllAssigned`),
the entry's `summaries` has length `n` and `summaries[i].version = i + 1`. -/
theorem appendAssignedVersion_monotone (ps : List (SummarizeResponse × Nat))
    (s : Store) (k : String) (e : RawEntry)
    (hl : lookupEntry s k = some e) (hfresh : e.summaries = some []) :
    ∃ s2 e2 l, appendAllAssigned s k ps = .ok s2 ∧
      lookupEntry s2 k = some e2 ∧ e2.summaries = some l ∧
      l.length = ps.length ∧
      ∀ i (hi : i < l.length), (l.get ⟨i, hi⟩).version = i + 1 := by
  obtain ⟨s2, e2, l, h1, h2, h3, h4, h5⟩ :=
    appendAllAssigned_invariant ps s k e [] hl hfresh (by simp)
  refine ⟨s2, e2, l, h1, h2, h3, by simpa using h4, ?_⟩
  intro i hi
  have hi2 : i < (l.map (fun sv => sv.version)).length := by simpa using hi
  have hi3 : i < (List.range' 1 l.length).length := by simpa using hi
  have h8 : (l.map (fun sv => sv.version))[i] = (List.range' 1 l.length)[i] :=
    List.getElem_of_eq h5 hi2
  rw [List.getElem_map, List.getElem_range'_1] at h8
  simp only [List.get_eq_getElem]
  rw [h8, Nat.add_comm]

/-- C1 witness: two discipline-following appends on the fresh sample entry
produce versions 1 and 2. -/
theorem appendAssignedVersion_monotone_witness :
    lookupEntry [freshEntry] "h1" = some freshEntry ∧
    freshEntry.summaries = some [] ∧
    ∃ s2 e2 l,
      appendAllAssigned [freshEntry] "h1"
          [(sampleSummarize, 10), (sampleSummarize2, 20)] = .ok s2 ∧
      lookupEntry s2 "h1" = some e2 ∧ e2.summaries = some l ∧
      l.length = 2 ∧
      ∀ i (hi : i < l.length), (l.get ⟨i, hi⟩).version = i + 1 :=
  ⟨by decide, by decide,
   appendAssignedVersion_monotone
     [(sampleSummarize, 10), (sampleSummarize2, 20)]
     [freshEntry] "h1" freshEntry (by decide) (by decide)⟩

/-- C8 counterexample: on a legacy record whose `processedAt` is `0`
(falsy in JavaScript), the normalizer takes `generatedAt` from `Date.now()`
(the `now` argument, here 777) instead of `processedAt`, so the claimed
shape with `generatedAt = processedAt` is not produced. -/
theorem normalizeHistoryEntry_zero_processedAt :
    legacyZeroEntry.summaries = none ∧
    legacyZeroEntry.summary = some (some sampleSummarize) ∧
    normalizeHistoryEntry legacyZeroEntry 777 ≠
      { legacyZeroEntry with
        summaries := some [{ summary := sampleSummarize
                             generatedAt := legacyZeroEntry.processedAt
                             version := 1 }]
        summary := none } :=
  ⟨rfl, rfl, by decide⟩

/-- C8 (amended): normalizing a legacy record with non-null singular
summary `s` and nonzero `processedAt` `t` yields exactly the one-element
`summaries` array `[{summary := s, generatedAt := t, version := 1}]` with
the singular field removed and all other fields unchanged (when `t = 0`
the code substitutes `Date.now()` for `generatedAt`); a null or absent
legacy summary normalizes to an empty `summaries` array. -/
theorem normalizeHistoryEntry_legacy_shape (e : RawEntry)
    (s : SummarizeResponse) (now : Nat) :
    (e.summaries = none → e.summary = some (some s) → e.processedAt ≠ 0 →
      normalizeHistoryEntry e now =
        { e with
          summaries :=
            some [{ summary := s, generatedAt := e.processedAt, version := 1 }]
          summary := none }) ∧
    (e.summaries = none → (e.summary = none ∨ e.summary = some none) →
      normalizeHistoryEntry e now =
        { e with summaries := some [], summary := none }) := by
  constructor
  · intro h1 h2 h3
    simp [normalizeHistoryEntry, h1, h2, h3]
  · intro h1 h2
    rcases h2 with h2 | h2 <;> simp [normalizeHistoryEntry, h1, h2]

/-- C8 witness: the spec's migration scenario — the legacy sample entry
with `processedAt = 50` normalizes to the one-element wrapped shape. -/
theorem normalizeHistoryEntry_legacy_shape_witness :
    legacyEntry.summaries = none ∧
    legacyEntry.summary = some (some sampleSummarize) ∧
    legacyEntry.processedAt ≠ 0 ∧
    normalizeHistoryEntry legacyEntry 999 =
      { legacyEntry with
        summaries :=
          some [{ summary := sampleSummarize
                  generatedAt := legacyEntry.processedAt
                  version := 1 }]
        summary := none } :=
  ⟨rfl, rfl, by decide,
   (normalizeHistoryEntry_legacy_shape legacyEntry sampleSummarize 999).1
     rfl rfl (by decide)⟩

/-- C6 counterexample: a record lacking both the `summaries` array and the
legacy `summary` field is changed by the read-time normalizer (which adds
`summaries := []`) but left untouched by the v1→v2 migration step (whose
guard requires a present `summary` field), so the two transformations do
not agree on every record lacking `summaries`. -/
theorem normalizeHistoryEntry_ne_migrateRecord_on_bare :
    bareEntry.summaries = none ∧
    normalizeHistoryEntry bareEntry 0 ≠ migrateRecordV1toV2 bareEntry :=
  ⟨rfl, by decide⟩

/-- C6 (amended): the read-time normalizer and the open-time v1→v2
migration step produce the identical record on every record that lacks
`summaries` but carries a legacy `summary` field, provided the legacy
summary is null or `processedAt` is nonzero (for a non-null summary with
`processedAt = 0` the normalizer substitutes `Date.now()` where the
migration keeps `0`; for a record lacking both fields the migration is a
no-op while the normalizer adds an empty `summaries`). -/
theorem normalizeHistoryEntry_eq_migrateRecord_on_legacy (e : RawEntry)
    (now : Nat) (h1 : e.summaries = none) (h2 : e.summary ≠ none)
    (h3 : e.summary = some none ∨ e.processedAt ≠ 0) :
    normalizeHistoryEntry e now = migrateRecordV1toV2 e := by
  cases hy : e.summary with
  | none => exact absurd hy h2
  | some legacy =>
    cases legacy with
    | none => simp [normalizeHistoryEntry, migrateRecordV1toV2, h1, hy]
    | some sv =>
      have h4 : e.processedAt ≠ 0 := by
        rcases h3 with h3 | h3
        · rw [hy] at h3
          simp at h3
        · exact h3
      simp [normalizeHistoryEntry, migrateRecordV1toV2, h1, hy, h4]

/-- C6 witness: on the legacy sample entry (non-null summary,
`processedAt = 50`) the normalizer and the migration step coincide. -/
theorem normalizeHistoryEntry_eq_migrateRecord_on_legacy_witness :
    legacyEntry.summaries = none ∧ legacyEntry.summary ≠ none ∧
    normalizeHistoryEntry legacyEntry 123 = migrateRecordV1toV2 legacyEntry :=
  ⟨rfl, by decide,
   normalizeHistoryEntry_eq_migrateRecord_on_legacy legacyEntry 123 rfl
     (by decide) (Or.inr (by decide))⟩

theorem histLE_trans (a b c : RawEntry) (h1 : histLE a b = true)
    (h2 : histLE b c = true) : histLE a c = true := by
  simp only [histLE, Bool.or_eq_true, Bool.and_eq_true, decide_eq_true_eq,
             beq_iff_eq] at h1 h2 ⊢
  rcases h1 with h1 | ⟨h1, h1s⟩ <;> rcases h2 with h2 | ⟨h2, h2s⟩
  · exact Or.inl (by omega)
  · exact Or.inl (by omega)
  · exact Or.inl (by omega)
  · exact Or.inr ⟨by omega, le_trans h2s h1s⟩

theorem histLE_total (a b : RawEntry) : (histLE a b || histLE b a) = true := by
  simp only [histLE, Bool.or_eq_true, Bool.and_eq_true, decide_eq_true_eq,
             beq_iff_eq]
  rcases Nat.lt_trichotomy a.processedAt b.processedAt with h | h | h
  · exact Or.inr (Or.inl h)
  · rcases le_total a.fileHash b.fileHash with hs | hs
    · exact Or.inr (Or.inr ⟨h, hs⟩)
    · exact Or.inl (Or.inr ⟨h.symm, hs⟩)
  · exact Or.inl (Or.inl h)

theorem foldl_delete_eq_filter (ks : List String) (s : Store) :
    ks.foldl deleteHistoryEntry s =
      s.filter (fun x => ks.all (fun k2 => x.fileHash != k2)) := by
  induction ks generalizing s with
  | nil => simp
  | cons k ks ih =>
    simp only [List.foldl_cons]
    rw [ih]
    simp only [deleteHistoryEntry, List.filter_filter]
    apply List.filter_congr
    intro x _
    simp [Bool.and_comm]

/-- C3: after `enforceStorageLimit` runs on a store with unique keys and
pairwise-distinct `processedAt` values (the store invariant; distinctness
makes "the entries with the largest `processedAt`" well defined), the store
holds `min count capacity` entries, every retained entry was stored, and
every retained entry is strictly newer than every deleted one — i.e. the
retained entries are exactly the `capacity` most recent ones.  `App.tsx`
invokes this with capacity 50 after each successful save. -/
theorem enforceStorageLimit_bound (s : Store) (cap now : Nat)
    (hkeys : (s.map (fun e => e.fileHash)).Nodup)
    (htimes : (s.map (fun e => e.processedAt)).Nodup) :
    (enforceStorageLimit s cap now).length = min s.length cap ∧
    (∀ e ∈ enforceStorageLimit s cap now, e ∈ s) ∧
    (∀ e ∈ enforceStorageLimit s cap now, ∀ f ∈ s,
      f ∉ enforceStorageLimit s cap now → f.processedAt < e.processedAt) := by
  have hga : getAllHistory s now =
      (s.mergeSort histLE).map (fun e => normalizeHistoryEntry e now) := rfl
  have hperm : List.Perm (s.mergeSort histLE) s := List.mergeSort_perm s histLE
  have hlenL : (s.mergeSort histLE).length = s.length := hperm.length_eq
  have hgalen : (getAllHistory s now).length = s.length := by
    rw [hga, List.length_map, hlenL]
  by_cases hc : (getAllHistory s now).length ≤ cap
  · have hE : enforceStorageLimit s cap now = s := by
      simp only [enforceStorageLimit, hc, if_true]
    rw [hE]
    refine ⟨?_, fun e he => he, fun e he f hf hnf => absurd hf hnf⟩
    rw [hgalen] at hc
    omega
  · have hE : enforceStorageLimit s cap now =
        (((getAllHistory s now).drop cap).map (fun e => e.fileHash)).foldl
          deleteHistoryEntry s := by
      simp only [enforceStorageLimit, hc, if_false]
    have hks : ((getAllHistory s now).drop cap).map (fun e => e.fileHash) =
        ((s.mergeSort histLE).drop cap).map (fun e => e.fileHash) := by
      rw [hga, ← List.map_drop, List.map_map]
      apply List.map_congr_left
      intro a _
      exact normalizeHistoryEntry_fileHash a now
    have hE2 : enforceStorageLimit s cap now =
        s.filter (fun x =>
          (((s.mergeSort histLE).drop cap).map (fun e => e.fileHash)).all
            (fun k2 => x.fileHash != k2)) := by
      rw [hE, hks, foldl_delete_eq_filter]
    have hLkeys : ((s.mergeSort histLE).map (fun e => e.fileHash)).Nodup :=
      (hperm.map _).nodup_iff.mpr hkeys
    have hLnodup : (s.mergeSort histLE).Nodup := List.Nodup.of_map _ hLkeys
    have hsnodup : s.Nodup := List.Nodup.of_map _ hkeys
    have hsort : List.Pairwise (fun a b => histLE a b = true)
        (s.mergeSort histLE) :=
      List.sorted_mergeSort histLE_trans histLE_total s
    have htd : (s.mergeSort histLE).take cap ++ (s.mergeSort histLE).drop cap =
        s.mergeSort histLE := List.take_append_drop cap (s.mergeSort histLE)
    have hmem : ∀ x, x ∈ enforceStorageLimit s cap now ↔
        x ∈ s ∧ ∀ d ∈ (s.mergeSort histLE).drop cap,
          x.fileHash ≠ d.fileHash := by
      intro x
      rw [hE2, List.mem_filter]
      simp only [List.all_map, List.all_eq_true, bne_iff_ne, Function.comp_apply,
                 ne_eq, List.forall_mem_map]
    have hA : ∀ x ∈ s.mergeSort histLE,
        ((∀ d ∈ (s.mergeSort histLE).drop cap, x.fileHash ≠ d.fileHash) ↔
          x ∈ (s.mergeSort histLE).take cap) := by
      intro x hx
      constructor
      · intro hall
        have hx2 : x ∈ (s.mergeSort histLE).take cap ++
            (s.mergeSort histLE).drop cap := by
          rw [htd]; exact hx
        rcases List.mem_append.mp hx2 with hxT | hxD
        · exact hxT
        · exact absurd rfl (hall x hxD)
      · intro hxT d hd heq
        have hdL : d ∈ s.mergeSort histLE := List.mem_of_mem_drop hd
        have hxd : x = d := List.inj_on_of_nodup_map hLkeys hx hdL heq
        subst hxd
        have hnd : ((s.mergeSort histLE).take cap ++
            (s.mergeSort histLE).drop cap).Nodup := by
          rw [htd]; exact hLnodup
        rw [List.nodup_append] at hnd
        exact hnd.2.2 hxT hd
    have hmem2 : ∀ x, x ∈ enforceStorageLimit s cap now ↔
        x ∈ (s.mergeSort histLE).take cap := by
      intro x
      rw [hmem x]
      constructor
      · rintro ⟨hxs, hall⟩
        exact (hA x (hperm.mem_iff.mpr hxs)).mp hall
      · intro hxT
        have hxL : x ∈ s.mergeSort histLE := List.mem_of_mem_take hxT
        exact ⟨hperm.mem_iff.mp hxL, (hA x hxL).mpr hxT⟩
    have hednd : (enforceStorageLimit s cap now).Nodup := by
      rw [hE2]
      exact hsnodup.filter _
    have hTnd : ((s.mergeSort histLE).take cap).Nodup :=
      (List.take_sublist cap (s.mergeSort histLE)).nodup hLnodup
    have hpermT : List.Perm (enforceStorageLimit s cap now)
        ((s.mergeSort histLE).take cap) :=
      (List.perm_ext_iff_of_nodup hednd hTnd).mpr (fun a => hmem2 a)
    refine ⟨?_, fun e he => ((hmem e).mp he).1, ?_⟩
    · rw [hpermT.length_eq, List.length_take, hlenL]
      rw [hgalen] at hc
      omega
    · intro e he f hf hnf
      have heT : e ∈ (s.mergeSort histLE).take cap := (hmem2 e).mp he
      have hfL : f ∈ s.mergeSort histLE := hperm.mem_iff.mpr hf
      have hf2 : f ∈ (s.mergeSort histLE).take cap ++
          (s.mergeSort histLE).drop cap := by
        rw [htd]; exact hfL
      have hfD : f ∈ (s.mergeSort histLE).drop cap := by
        rcases List.mem_append.mp hf2 with hfT | hfD
        · exact absurd ((hmem2 f).mpr hfT) hnf
        · exact hfD
      have hrel : histLE e f = true :=
        List.Sorted.rel_of_mem_take_of_mem_drop hsort heT hfD
      have hne : e ≠ f := fun hx => hnf (hx ▸ he)
      have hes : e ∈ s := ((hmem e).mp he).1
      have hpne : f.processedAt ≠ e.processedAt := by
        intro hp
        exact hne (List.inj_on_of_nodup_map htimes hes hf hp.symm)
      simp only [histLE, Bool.or_eq_true, Bool.and_eq_true, decide_eq_true_eq,
                 beq_iff_eq] at hrel
      rcases hrel with h | ⟨h, _⟩
      · exact h
      · exact absurd h hpne

/-- C3 witness: the spec scenario — three entries with `processedAt`
100/200/300 and capacity 2: after eviction the store holds
`min 3 2 = 2` entries. -/
theorem enforceStorageLimit_bound_witness :
    (([entryAt "a" 100, entryAt "b" 200, entryAt "c" 300].map
        (fun e => e.fileHash)).Nodup) ∧
    (([entryAt "a" 100, entryAt "b" 200, entryAt "c" 300].map
        (fun e => e.processedAt)).Nodup) ∧
    (enforceStorageLimit [entryAt "a" 100, entryAt "b" 200, entryAt "c" 300]
        2 0).length =
      min [entryAt "a" 100, entryAt "b" 200, entryAt "c" 300].length 2 :=
  ⟨by decide, by decide,
   (enforceStorageLimit_bound [entryAt "a" 100, entryAt "b" 200, entryAt "c" 300]
      2 0 (by decide) (by decide)).1⟩

end TranscriptTurbo
